import Mathlib

/-!
Verification of the `dj-course` M1 tokenizer suite against its specification.

The repository consists of three Python scripts:
* `tokenizer-build.py` — builds a BPE tokenizer over a corpus (the BPE engine
  itself lives in the external `tokenizers` library; only its configuration is
  in the repository, so the engine is modelled from the specification),
* `compare-tokenizers.py` — loads persisted tokenizers and ranks them by token
  count on sample texts,
* `corpora.py` — corpus-selector tables and file discovery.

Pure fragments are embedded as Lean functions; filesystem reads and library
loads are passed in explicitly (a glob function, `Except`-valued read results).
-/

/-- Modelled from the spec (§4.1): the whitespace pre-tokenizer configured by
`tokenizer.pre_tokenizer = Whitespace()` in `tokenizer-build.py`.  Its
implementation is not part of this repository; per the spec it splits a raw
character sequence at whitespace boundaries into maximal runs of non-whitespace
characters, dropping the whitespace itself and producing no empty unit. -/
def preTokenize : List Char → List (List Char)
  | [] => []
  | c :: rest =>
    if c.isWhitespace then preTokenize rest
    else
      match rest with
      | [] => [[c]]
      | d :: _ =>
        if d.isWhitespace then [c] :: preTokenize rest
        else
          match preTokenize rest with
          | u :: us => (c :: u) :: us
          | [] => [[c]]

/-- First-seen deduplication, with an accumulator of the elements already
seen: keeps the first occurrence of each element, in order of first
appearance (spec §4.2 step 1: base symbols in first-seen order). -/
def dedupFirstAux {α : Type} [DecidableEq α] (seen : List α) : List α → List α
  | [] => []
  | a :: rest =>
    if a ∈ seen then dedupFirstAux seen rest
    else a :: dedupFirstAux (a :: seen) rest

/-- First-seen deduplication, starting from nothing seen. -/
def dedupFirst {α : Type} [DecidableEq α] (l : List α) : List α :=
  dedupFirstAux [] l

/-- One left-to-right scan pass replacing every (non-overlapping) adjacent
occurrence of the symbol pair `(a, b)` by the merged symbol `c`
(spec §4.2 step 3c / §4.3). -/
def scanReplace (a b c : Nat) : List Nat → List Nat
  | [] => []
  | [x] => [x]
  | x :: y :: rest =>
    if x = a ∧ y = b then c :: scanReplace a b c rest
    else x :: scanReplace a b c (y :: rest)

/-- Whether the adjacent symbol pair `(a, b)` occurs somewhere in `xs`. -/
def hasPair (a b : Nat) : List Nat → Bool
  | x :: y :: rest => (x == a && y == b) || hasPair a b (y :: rest)
  | _ => false

/-- The lowest-ranked merge rule that is applicable to `xs`
(rules are listed in ascending rank order, spec §4.3). -/
def findRule (rules : List (Nat × Nat × Nat)) (xs : List Nat) : Option (Nat × Nat × Nat) :=
  rules.find? (fun r => hasPair r.1 r.2.1 xs)

/-- Modelled from the spec (§4.3): repeatedly apply the lowest-ranked
applicable merge rule by a full left-to-right scan pass, until no rule
applies.  Each applied pass strictly shortens the sequence, so fuel equal to
the initial length reaches the fixed point. -/
def applyMerges (rules : List (Nat × Nat × Nat)) : Nat → List Nat → List Nat
  | 0, xs => xs
  | fuel + 1, xs =>
    match findRule rules xs with
    | none => xs
    | some (a, b, c) => applyMerges rules fuel (scanReplace a b c xs)

/-- The trained artifact (spec §3, §6): special tokens, the token-string → id
table covering every symbol, the merge rules in training rank order, and the
designated unknown token (`BPE(unk_token="[UNK]")` in `tokenizer-build.py`). -/
structure Vocabulary where
  specialTokens : List String
  tokenTable : List (String × Nat)
  merges : List (String × String)
  unkToken : String
deriving DecidableEq, Repr

/-- Token-string lookup in the token table. -/
def lookupToken (V : Vocabulary) (s : String) : Option Nat :=
  List.lookup s V.tokenTable

/-- The id of the designated unknown token. -/
def unkId (V : Vocabulary) : Nat :=
  (lookupToken V V.unkToken).getD 0

/-- Base-symbol lookup for a single character. -/
def lookupChar (V : Vocabulary) (c : Char) : Option Nat :=
  lookupToken V c.toString

/-- Resolve the persisted `(left, right)` merge-rule strings to id triples
`(left id, right id, merged id)`; the merged token's string is the
concatenation of the two parts (spec §6). -/
def ruleIds (V : Vocabulary) : List (Nat × Nat × Nat) :=
  V.merges.filterMap (fun p =>
    match lookupToken V p.1, lookupToken V p.2, lookupToken V (p.1 ++ p.2) with
    | some a, some b, some c => some (a, b, c)
    | _, _, _ => none)

/-- Modelled from the spec (§4.3): encode one pre-tokenized unit — one base
symbol per character, falling back to the unknown-token id for characters
absent from the token table, then apply merge rules in rank order. -/
def encodeUnit (V : Vocabulary) (unit : List Char) : List Nat :=
  let init := unit.map (fun c => (lookupChar V c).getD (unkId V))
  applyMerges (ruleIds V) init.length init

/-- Modelled from the spec (§4.3): encode a text — pre-tokenize, encode each
unit, concatenate the units' id sequences in order. -/
def encode (V : Vocabulary) (text : String) : List Nat :=
  ((preTokenize text.toList).map (encodeUnit V)).flatten

/-- All adjacent symbol-id pairs of one unit, in left-to-right order. -/
def adjacentPairs (xs : List Nat) : List (Nat × Nat) :=
  xs.zip xs.tail

/-- Aggregate frequency of an adjacent pair across all units
(spec §4.2 step 2; a unit occurring several times in the corpus appears
several times in the list, so counts are weighted by unit multiplicity). -/
def pairFreq (units : List (List Nat)) (p : Nat × Nat) : Nat :=
  (units.map (fun u => (adjacentPairs u).count p)).sum

/-- Candidate pairs in deterministic left-to-right, first-seen scan order
(spec §4.2 step 3a tie-break). -/
def candidatePairs (units : List (List Nat)) : List (Nat × Nat) :=
  dedupFirst ((units.map adjacentPairs).flatten)

/-- Modelled from the spec (§4.2 step 3a): the pair with the highest
aggregate frequency; on ties the pair first seen in scan order wins
(the fold only replaces the current best on a strictly greater frequency). -/
def bestPair (units : List (List Nat)) : Option (Nat × Nat) :=
  (candidatePairs units).foldl (fun acc p =>
    match acc with
    | none => some p
    | some q => if pairFreq units q < pairFreq units p then some p else acc) none

/-- Mutable training state (spec §4.2): the symbol strings indexed by id,
the corpus units as id sequences, and the merge rules produced so far. -/
structure TrainState where
  symbols : List String
  units : List (List Nat)
  merges : List (String × String)
deriving DecidableEq, Repr

/-- One merge step (spec §4.2 step 3): pick the best pair; stop when there is
none or its frequency is below the minimum; otherwise create the merged
symbol, record the rule, and rewrite every unit. -/
def mergeStep (minFreq : Nat) (st : TrainState) : Option TrainState :=
  match bestPair st.units with
  | none => none
  | some (a, b) =>
    if pairFreq st.units (a, b) < minFreq then none
    else
      let sa := st.symbols.getD a ""
      let sb := st.symbols.getD b ""
      let c := st.symbols.length
      some { symbols := st.symbols ++ [sa ++ sb],
             units := st.units.map (scanReplace a b c),
             merges := st.merges ++ [(sa, sb)] }

/-- Run merge steps until the fuel (remaining vocabulary budget) is spent or
no pair meets the minimum frequency (spec §4.2 step 3). -/
def mergeLoop (minFreq : Nat) : Nat → TrainState → TrainState
  | 0, st => st
  | fuel + 1, st =>
    match mergeStep minFreq st with
    | none => st
    | some st2 => mergeLoop minFreq fuel st2

/-- Modelled from the spec (§4.2): BPE vocabulary training.  The trainer
itself (`BpeTrainer` in `tokenizer-build.py`) is not part of this repository;
this follows the spec's algorithm with its explicit first-seen deterministic
tie-break.  Special tokens get the lowest ids in the given order, then base
symbols in first-seen order; merging continues until the target size is
reached or no pair meets the minimum frequency.  Signals an invalid
configuration when the target size cannot hold specials plus base alphabet. -/
def train (corpus : List String) (targetVocabSize minMergeFrequency : Nat)
    (specialTokens : List String) : Except String Vocabulary :=
  let units : List (List Char) := (corpus.map (fun doc => preTokenize doc.toList)).flatten
  let alphabet : List Char := dedupFirst units.flatten
  if targetVocabSize < specialTokens.length + alphabet.length then
    Except.error "InvalidConfiguration"
  else
    let symbols0 := specialTokens ++ alphabet.map (fun c => c.toString)
    let idUnits := units.map (fun u => u.map (fun c => specialTokens.length + alphabet.indexOf c))
    let st0 : TrainState := { symbols := symbols0, units := idUnits, merges := [] }
    let stF := mergeLoop minMergeFrequency (targetVocabSize - symbols0.length) st0
    Except.ok
      { specialTokens := specialTokens,
        tokenTable := stF.symbols.enum.map (fun p => (p.2, p.1)),
        merges := stF.merges,
        unkToken := "[UNK]" }

/-- The persisted document of spec §6, rendered as one string: the ordered
special tokens, the token table, and the merge list in rank order.  Two
vocabularies serialize to the same bytes exactly when they are equal. -/
def serializeVocabulary (V : Vocabulary) : String :=
  String.intercalate "," V.specialTokens ++ ";" ++
    String.intercalate "," (V.tokenTable.map (fun p => p.1 ++ ":" ++ toString p.2)) ++ ";" ++
    String.intercalate "," (V.merges.map (fun p => p.1 ++ "+" ++ p.2)) ++ ";" ++ V.unkToken

/-- Ranking relation of `compare-tokenizers.py`: `results.sort(key=lambda x: x[1])`
orders entries by token count. -/
def cntLe (p q : String × Nat) : Prop :=
  p.2 ≤ q.2

instance : DecidableRel cntLe :=
  fun p q => Nat.decLe p.2 q.2

instance : IsTotal (String × Nat) cntLe :=
  ⟨fun p q => Nat.le_total p.2 q.2⟩

instance : IsTrans (String × Nat) cntLe :=
  ⟨fun _ _ _ h1 h2 => Nat.le_trans h1 h2⟩

/-- From `compare-tokenizers.py` (`tokenize_and_count`): the number of token
ids an encoder produces for a text (`len(encoded.ids)`).  A loaded tokenizer
is represented by its encoding behavior `String → List Nat`. -/
def tokenize_and_count (tokenizer : String → List Nat) (text : String) : Nat :=
  (tokenizer text).length

/-- From `compare-tokenizers.py` (`compare_tokenizers_on_text`): pair every
tokenizer of the mapping (a Python `dict`, i.e. a list of entries in
insertion order) with its token count for the text, then sort ascending by
count.  Python's `list.sort` is stable; any stable sort by the same key
yields the same list, so insertion sort models it exactly. -/
def compare_tokenizers_on_text (tokenizers : List (String × (String → List Nat)))
    (text : String) : List (String × Nat) :=
  List.insertionSort cntLe (tokenizers.map (fun p => (p.1, tokenize_and_count p.2 text)))

/-- From `compare-tokenizers.py` (`display_results_table`, line 152):
`diff_percent = ((token_count - min_tokens) / min_tokens * 100) if min_tokens > 0 else 0`.
Counts are cast to the rationals for the true division. -/
def diff_percent (token_count min_tokens : Nat) : Rat :=
  if 0 < min_tokens then ((token_count : Rat) - (min_tokens : Rat)) / (min_tokens : Rat) * 100
  else 0

/-- From `compare-tokenizers.py` (`display_results_table`): the per-entry
overhead percentages, computed against `min_tokens = results[0][1]` (the
results are already sorted ascending, so the first entry is the best). -/
def display_overheads (results : List (String × Nat)) : List Rat :=
  match results with
  | [] => []
  | (_, m) :: _ => results.map (fun p => diff_percent p.2 m)

/-- The `pathlib.Path.stem` of a file name as used by `load_tokenizers`
(`tokenizer_file.stem`): the name without its last extension — everything
before the last dot, except that a name without a dot, or with its only dot
in front (a dotfile), is kept whole. -/
def stem (fileName : String) : String :=
  match (fileName.toList.reverse.dropWhile (fun c => c ≠ '.')) with
  | [] => fileName
  | _ :: rest => if rest = [] then fileName else String.mk rest.reverse

/-- Python `dict` assignment `d[k] = v`: overwrite in place when the key is
present, otherwise append at the end (insertion order is preserved). -/
def dictInsert {α : Type} (k : String) (v : α) : List (String × α) → List (String × α)
  | [] => [(k, v)]
  | p :: rest => if p.1 = k then (k, v) :: rest else p :: dictInsert k v rest

/-- The loop body of `load_tokenizers`: for each file (in the iteration
order of `sorted(tokenizer_files)`), a successful load inserts the tokenizer
under the file's stem; a failed load is reported and skipped, and the loop
continues with the remaining files. -/
def load_tokenizers_go {α : Type} (acc : List (String × α)) :
    List (String × Except String α) → List (String × α)
  | [] => acc
  | (name, Except.ok t) :: rest => load_tokenizers_go (dictInsert (stem name) t acc) rest
  | (_, Except.error _) :: rest => load_tokenizers_go acc rest

/-- From `compare-tokenizers.py` (`load_tokenizers`): load all tokenizer
files of a directory into a name → tokenizer mapping.  The filesystem and
the JSON parser are passed in as the per-file `Except`-valued load results,
in the sorted order the source iterates in. -/
def load_tokenizers {α : Type} (files : List (String × Except String α)) : List (String × α) :=
  load_tokenizers_go [] files

/-- From `compare-tokenizers.py` (`load_text_file`): return the file's text,
or the empty string when reading raised (the exception is caught, reported,
and swallowed). -/
def load_text_file (readResult : Except String String) : String :=
  match readResult with
  | Except.ok s => s
  | Except.error _ => ""

/-- The two ways a call of `corpora.py` can raise: the explicit
`ValueError("Corpus ... not found")`, and an unhandled `KeyError` from a
`CORPORA_DIRS[...]` lookup. -/
inductive PyError where
  | valueError (msg : String)
  | keyError (key : String)
deriving DecidableEq, Repr

/-- From `corpora.py`: the corpus-name → directory table.  It has entries
for `NKJP` and `WOLNELEKTURY` only. -/
def CORPORA_DIRS : List (String × String) :=
  [("NKJP", "../korpus-nkjp/output"), ("WOLNELEKTURY", "../korpus-wolnelektury")]

/-- From `corpora.py`: the corpus-name → file-list table, built by globbing
at import time, plus the derived `ALL` entry.  The filesystem is passed in
as a glob function from directory and pattern to the matching files. -/
def CORPORA_FILES (glob : String → String → List String) : List (String × List String) :=
  let base := [("NKJP", glob "../korpus-nkjp/output" "*.txt"),
               ("WOLNELEKTURY", glob "../korpus-wolnelektury" "*.txt"),
               ("PAN_TADEUSZ", glob "../korpus-wolnelektury" "pan-tadeusz-ksiega-*.txt")]
  base ++ [("ALL", (base.map (fun p => p.2)).flatten)]

/-- From `corpora.py` (`get_corpus_file`): reject names that are not keys of
`CORPORA_FILES` with a `ValueError`; collect from every directory for `ALL`;
otherwise glob `CORPORA_DIRS[corpus_name]` — a lookup that raises `KeyError`
when the name is a key of `CORPORA_FILES` but not of `CORPORA_DIRS`. -/
def get_corpus_file (glob : String → String → List String)
    (corpus_name glob_pattern : String) : Except PyError (List String) :=
  if corpus_name ∈ (CORPORA_FILES glob).map (fun p => p.1) then
    if corpus_name = "ALL" then
      Except.ok ((CORPORA_DIRS.map (fun p => glob p.2 glob_pattern)).flatten)
    else
      match List.lookup corpus_name CORPORA_DIRS with
      | some d => Except.ok (glob d glob_pattern)
      | none => Except.error (PyError.keyError corpus_name)
  else
    Except.error (PyError.valueError ("Corpus " ++ corpus_name ++ " not found"))

/-- What one iteration of `main`'s text loop produces: the comparison results
for the text (when any), and the error messages printed.  A missing file and
an empty or unreadable file are skipped with a message. -/
def processText (toks : List (String × (String → List Nat)))
    (entry : Bool × Except String String) :
    Option (List (String × Nat)) × List String :=
  if entry.1 = false then (none, ["✗ File not found"])
  else
    let text := load_text_file entry.2
    if text = "" then (none, ["✗ Empty or unreadable file"])
    else (some (compare_tokenizers_on_text toks text), [])

/-- Outcome of one run of the comparison command: the messages printed and
the process exit code. -/
structure RunResult where
  messages : List String
  exitCode : Nat
deriving DecidableEq, Repr

/-- From `compare-tokenizers.py` (`main`): load the tokenizers; when none
were found, print `✗ No tokenizers found!` and return.  `main` never calls
`sys.exit` and the script runs it bare, so the interpreter always exits with
status 0 on every path, the no-tokenizers path included. -/
def mainRun (tokenizerFiles : List (String × Except String (String → List Nat)))
    (texts : List (Bool × Except String String)) : RunResult :=
  let toks := load_tokenizers tokenizerFiles
  if toks.isEmpty then { messages := ["✗ No tokenizers found!"], exitCode := 0 }
  else
    { messages := (texts.map (fun t => (processText toks t).2)).flatten ++
        ["✓ Analysis complete!"],
      exitCode := 0 }

/-- Unfolding: a leading whitespace character is dropped. -/
theorem preTokenize_cons_ws (c : Char) (rest : List Char) (hc : c.isWhitespace = true) :
    preTokenize (c :: rest) = preTokenize rest := by
  cases rest <;> simp [preTokenize, hc]

/-- Unfolding: a single non-whitespace character forms one unit. -/
theorem preTokenize_single (c : Char) (hc : c.isWhitespace = false) :
    preTokenize [c] = [[c]] := by
  simp [preTokenize, hc]

/-- Unfolding: a non-whitespace character followed by whitespace closes its
unit. -/
theorem preTokenize_cons_nonws_ws (c d : Char) (t : List Char)
    (hc : c.isWhitespace = false) (hd : d.isWhitespace = true) :
    preTokenize (c :: d :: t) = [c] :: preTokenize (d :: t) := by
  simp [preTokenize, hc, hd]

/-- Unfolding: a non-whitespace character followed by another extends the
following unit. -/
theorem preTokenize_cons_nonws_nonws (c d : Char) (t : List Char)
    (hc : c.isWhitespace = false) (hd : d.isWhitespace = false) :
    preTokenize (c :: d :: t) =
      match preTokenize (d :: t) with
      | u :: us => (c :: u) :: us
      | [] => [[c]] := by
  conv_lhs => rw [preTokenize.eq_def]
  simp [hc, hd]

/-- Concatenating the pre-tokenized units restores exactly the non-whitespace
characters of the input, in order. -/
theorem preTokenize_flatten (cs : List Char) :
    (preTokenize cs).flatten = cs.filter (fun c => !c.isWhitespace) := by
  induction cs using preTokenize.induct with
  | case1 => rfl
  | case2 d tail hd ih =>
      rw [preTokenize_cons_ws d tail hd, List.filter_cons]
      simp [hd, ih]
  | case3 d hd =>
      simp only [Bool.not_eq_true] at hd
      rw [preTokenize_single d hd]
      simp [List.filter_cons, hd]
  | case4 d hd d1 tail hd1 ih =>
      simp only [Bool.not_eq_true] at hd
      rw [preTokenize_cons_nonws_ws d d1 tail hd hd1, List.filter_cons]
      simp [hd, ih]
  | case5 d hd d1 tail hd1 u us heq ih =>
      simp only [Bool.not_eq_true] at hd hd1
      rw [preTokenize_cons_nonws_nonws d d1 tail hd hd1, heq, List.filter_cons]
      rw [heq] at ih
      simp only [List.flatten_cons] at ih ⊢
      simp [hd, ← ih]
  | case6 d hd d1 tail hd1 heq ih =>
      simp only [Bool.not_eq_true] at hd hd1
      rw [preTokenize_cons_nonws_nonws d d1 tail hd hd1, heq, List.filter_cons]
      rw [heq] at ih
      simp only [List.flatten_nil] at ih
      simp [hd, ← ih]

/-- Pre-tokenizing a sequence that starts with a non-whitespace character
yields a first unit that starts with that character. -/
theorem preTokenize_cons_shape (c : Char) (rest : List Char)
    (hc : c.isWhitespace = false) :
    ∃ u us, preTokenize (c :: rest) = (c :: u) :: us := by
  cases rest with
  | nil => exact ⟨[], [], preTokenize_single c hc⟩
  | cons d t =>
    by_cases hd : d.isWhitespace
    · exact ⟨[], preTokenize (d :: t), preTokenize_cons_nonws_ws c d t hc hd⟩
    · simp only [Bool.not_eq_true] at hd
      cases heq : preTokenize (d :: t) with
      | nil =>
        exfalso
        have h := preTokenize_flatten (d :: t)
        rw [heq] at h
        simp [List.filter_cons, hd] at h
      | cons u us =>
        refine ⟨u, us, ?_⟩
        rw [preTokenize_cons_nonws_nonws c d t hc hd, heq]

/-- Every unit the pre-tokenizer produces is nonempty and free of whitespace
characters. -/
theorem preTokenize_units (cs : List Char) :
    ∀ u ∈ preTokenize cs, u ≠ [] ∧ ∀ x ∈ u, x.isWhitespace = false := by
  induction cs using preTokenize.induct with
  | case1 => simp [preTokenize]
  | case2 d tail hd ih =>
      rw [preTokenize_cons_ws d tail hd]
      exact ih
  | case3 d hd =>
      simp only [Bool.not_eq_true] at hd
      rw [preTokenize_single d hd]
      simp [hd]
  | case4 d hd d1 tail hd1 ih =>
      simp only [Bool.not_eq_true] at hd
      rw [preTokenize_cons_nonws_ws d d1 tail hd hd1]
      intro u hu
      rcases List.mem_cons.mp hu with h | h
      · subst h
        exact ⟨by simp, by simp [hd]⟩
      · exact ih u h
  | case5 d hd d1 tail hd1 u us heq ih =>
      simp only [Bool.not_eq_true] at hd hd1
      rw [preTokenize_cons_nonws_nonws d d1 tail hd hd1, heq]
      rw [heq] at ih
      intro v hv
      rcases List.mem_cons.mp hv with h | h
      · subst h
        refine ⟨by simp, ?_⟩
        intro x hx
        rcases List.mem_cons.mp hx with h | h
        · subst h; exact hd
        · exact (ih u (List.mem_cons_self u us)).2 x h
      · exact ih v (List.mem_cons_of_mem u h)
  | case6 d hd d1 tail hd1 heq ih =>
      simp only [Bool.not_eq_true] at hd1
      exfalso
      obtain ⟨u, us, h⟩ := preTokenize_cons_shape d1 tail hd1
      rw [heq] at h
      exact List.noConfusion h

/-- A whitespace character is always a split point: pre-tokenization of the
two sides is independent. -/
theorem preTokenize_append_ws (c : Char) (ys : List Char) (hc : c.isWhitespace = true) :
    ∀ xs, preTokenize (xs ++ c :: ys) = preTokenize xs ++ preTokenize ys := by
  intro xs
  induction xs using preTokenize.induct with
  | case1 =>
      rw [List.nil_append, preTokenize_cons_ws c ys hc]
      rfl
  | case2 d tail hd ih =>
      rw [List.cons_append, preTokenize_cons_ws d _ hd, ih, preTokenize_cons_ws d tail hd]
  | case3 d hd =>
      simp only [Bool.not_eq_true] at hd
      rw [List.singleton_append, preTokenize_cons_nonws_ws d c ys hd hc,
        preTokenize_cons_ws c ys hc, preTokenize_single d hd]
      rfl
  | case4 d hd d1 tail hd1 ih =>
      simp only [Bool.not_eq_true] at hd
      rw [List.cons_append, List.cons_append, preTokenize_cons_nonws_ws d d1 _ hd hd1,
        ← List.cons_append, ih, preTokenize_cons_nonws_ws d d1 tail hd hd1,
        List.cons_append]
  | case5 d hd d1 tail hd1 u us heq ih =>
      simp only [Bool.not_eq_true] at hd hd1
      rw [List.cons_append, List.cons_append, preTokenize_cons_nonws_nonws d d1 _ hd hd1,
        ← List.cons_append, ih, heq, preTokenize_cons_nonws_nonws d d1 tail hd hd1, heq]
      rfl
  | case6 d hd d1 tail hd1 heq ih =>
      simp only [Bool.not_eq_true] at hd1
      exfalso
      obtain ⟨u, us, h⟩ := preTokenize_cons_shape d1 tail hd1
      rw [heq] at h
      exact List.noConfusion h

/-- A run without any whitespace is a single unit: no boundary is ever
introduced between non-whitespace characters, punctuation included. -/
theorem preTokenize_no_ws (cs : List Char) (hne : cs ≠ [])
    (hall : ∀ x ∈ cs, x.isWhitespace = false) : preTokenize cs = [cs] := by
  induction cs with
  | nil => exact absurd rfl hne
  | cons c rest ih =>
    have hc : c.isWhitespace = false := hall c (List.mem_cons_self c rest)
    cases rest with
    | nil => exact preTokenize_single c hc
    | cons d t =>
      have hd : d.isWhitespace = false :=
        hall d (List.mem_cons_of_mem c (List.mem_cons_self d t))
      have hrest : preTokenize (d :: t) = [d :: t] :=
        ih (by simp) (fun x hx => hall x (List.mem_cons_of_mem c hx))
      rw [preTokenize_cons_nonws_nonws c d t hc hd, hrest]

/-- C2.  The pre-tokenizer splits only at whitespace boundaries: every unit
is nonempty and whitespace-free; the units' concatenation is exactly the
input minus its whitespace (each unit retains its original character
content); every whitespace character is a split point, so contiguous
whitespace collapses to a single split and leading/trailing whitespace adds
no empty unit; and a whitespace-free run stays one unit, so no boundary is
introduced between a word and adjacent punctuation. -/
theorem whitespace_pretokenizer_spec :
    (∀ cs : List Char, ∀ u ∈ preTokenize cs, u ≠ [] ∧ ∀ x ∈ u, x.isWhitespace = false) ∧
    (∀ cs : List Char, (preTokenize cs).flatten = cs.filter (fun c => !c.isWhitespace)) ∧
    (∀ (xs : List Char) (c : Char) (ys : List Char), c.isWhitespace = true →
      preTokenize (xs ++ c :: ys) = preTokenize xs ++ preTokenize ys) ∧
    (∀ cs : List Char, cs ≠ [] → (∀ x ∈ cs, x.isWhitespace = false) →
      preTokenize cs = [cs]) :=
  ⟨preTokenize_units, preTokenize_flatten,
    fun xs c ys hc => preTokenize_append_ws c ys hc xs, preTokenize_no_ws⟩

/-- C2 witness: `"ab,"` keeps its punctuation attached, and the whitespace
between `"ab,"` and `"cd"` is a pure split point. -/
theorem whitespace_pretokenizer_spec_witness :
    preTokenize ("ab,".toList ++ ' ' :: "cd".toList) =
      preTokenize "ab,".toList ++ preTokenize "cd".toList ∧
    preTokenize "cd".toList = ["cd".toList] :=
  ⟨whitespace_pretokenizer_spec.2.2.1 "ab,".toList ' ' "cd".toList (by decide),
    whitespace_pretokenizer_spec.2.2.2 "cd".toList (by decide) (by decide)⟩

/-- Inserting an entry whose count equals `c` into a list keeps all other
entries with count `c` behind it only when they are not strictly smaller;
for the insertion-sort model the entries skipped over are strictly smaller,
so the filter on count `c` gains exactly the new entry at its front. -/
theorem filter_orderedInsert_of_eq (c : Nat) (p : String × Nat)
    (l : List (String × Nat)) (hp : p.2 = c) :
    (List.orderedInsert cntLe p l).filter (fun q => q.2 == c) =
      p :: l.filter (fun q => q.2 == c) := by
  induction l with
  | nil => simp [List.orderedInsert, hp]
  | cons q rest ih =>
    by_cases h : cntLe p q
    · rw [List.orderedInsert_of_le cntLe rest h]
      simp [hp]
    · have hq : ¬ q.2 = c := by
        simp only [cntLe, not_le] at h
        omega
      simp only [List.orderedInsert, if_neg h, List.filter_cons]
      simp [hq, ih]

/-- Inserting an entry whose count differs from `c` leaves the filter on
count `c` unchanged. -/
theorem filter_orderedInsert_of_ne (c : Nat) (p : String × Nat)
    (l : List (String × Nat)) (hp : p.2 ≠ c) :
    (List.orderedInsert cntLe p l).filter (fun q => q.2 == c) =
      l.filter (fun q => q.2 == c) := by
  induction l with
  | nil => simp [List.orderedInsert, hp]
  | cons q rest ih =>
    by_cases h : cntLe p q
    · rw [List.orderedInsert_of_le cntLe rest h]
      simp [hp]
    · simp only [List.orderedInsert, if_neg h, List.filter_cons]
      rw [ih]

/-- Stability of the ranking sort: for every count value, the entries with
that count appear in the sorted output in their original relative order. -/
theorem filter_insertionSort (c : Nat) (l : List (String × Nat)) :
    (List.insertionSort cntLe l).filter (fun q => q.2 == c) =
      l.filter (fun q => q.2 == c) := by
  induction l with
  | nil => rfl
  | cons p rest ih =>
    simp only [List.insertionSort]
    by_cases hp : p.2 = c
    · rw [filter_orderedInsert_of_eq c p _ hp, ih, List.filter_cons]
      simp [hp]
    · rw [filter_orderedInsert_of_ne c p _ hp, ih, List.filter_cons]
      simp [hp]

/-- C1.  The comparator pairs every tokenizer of the mapping with its token
count (one entry per tokenizer, a permutation of the paired input), sorts
ascending by token count, and is stable: for every count value the entries
with that count keep the iteration order of the input mapping. -/
theorem comparator_ranked_results
    (tokenizers : List (String × (String → List Nat))) (text : String) :
    List.Perm (compare_tokenizers_on_text tokenizers text)
      (tokenizers.map (fun p => (p.1, tokenize_and_count p.2 text))) ∧
    List.Sorted cntLe (compare_tokenizers_on_text tokenizers text) ∧
    (∀ c : Nat, (compare_tokenizers_on_text tokenizers text).filter (fun q => q.2 == c) =
      (tokenizers.map (fun p => (p.1, tokenize_and_count p.2 text))).filter
        (fun q => q.2 == c)) :=
  ⟨List.perm_insertionSort cntLe _, List.sorted_insertionSort cntLe _,
    fun c => filter_insertionSort c _⟩

/-- Encoding the empty string yields the empty id sequence. -/
theorem encode_empty (V : Vocabulary) : encode V "" = [] :=
  rfl

/-- C4.  The per-entry overhead percentage is `(count - min) / min * 100`
against the best (first, lowest) count when that minimum is positive, and is
defined as `0` when the minimum is `0`; consequently comparing any
vocabularies on the empty string yields zero-count entries throughout and a
`0%` overhead column, with no division by zero. -/
theorem overhead_percentage_safe :
    (∀ count m : Nat, 0 < m →
      diff_percent count m = ((count : Rat) - (m : Rat)) / (m : Rat) * 100) ∧
    (∀ count : Nat, diff_percent count 0 = 0) ∧
    (∀ Vs : List (String × Vocabulary),
      (∀ p ∈ compare_tokenizers_on_text (Vs.map (fun v => (v.1, encode v.2))) "", p.2 = 0) ∧
      display_overheads (compare_tokenizers_on_text (Vs.map (fun v => (v.1, encode v.2))) "") =
        List.replicate Vs.length 0) := by
  refine ⟨fun count m hm => by simp [diff_percent, hm], fun count => by simp [diff_percent], ?_⟩
  intro Vs
  have hmap : (Vs.map (fun v => (v.1, encode v.2))).map
      (fun p => (p.1, tokenize_and_count p.2 "")) = Vs.map (fun v => (v.1, 0)) := by
    simp [List.map_map, tokenize_and_count, encode_empty, Function.comp]
  have hperm : List.Perm (compare_tokenizers_on_text (Vs.map (fun v => (v.1, encode v.2))) "")
      (Vs.map (fun v => (v.1, 0))) := by
    show List.Perm (List.insertionSort cntLe ((Vs.map (fun v => (v.1, encode v.2))).map
      (fun p => (p.1, tokenize_and_count p.2 "")))) _
    rw [hmap]
    exact List.perm_insertionSort cntLe _
  have hzero : ∀ p ∈ compare_tokenizers_on_text (Vs.map (fun v => (v.1, encode v.2))) "",
      p.2 = 0 := by
    intro p hp
    have := hperm.mem_iff.mp hp
    simp only [List.mem_map] at this
    obtain ⟨v, _, hv⟩ := this
    rw [← hv]
  refine ⟨hzero, ?_⟩
  have hlen : (compare_tokenizers_on_text (Vs.map (fun v => (v.1, encode v.2))) "").length =
      Vs.length := by
    rw [hperm.length_eq, List.length_map]
  cases hres : compare_tokenizers_on_text (Vs.map (fun v => (v.1, encode v.2))) "" with
  | nil =>
    rw [hres] at hlen
    simp [display_overheads, ← hlen]
  | cons hd tl =>
    have hm : hd.2 = 0 := hzero hd (by rw [hres]; exact List.mem_cons_self hd tl)
    rw [hres] at hlen
    have : display_overheads (hd :: tl) = List.replicate (hd :: tl).length 0 := by
      simp only [display_overheads]
      rw [hm]
      have hconst : ∀ p ∈ hd :: tl, diff_percent (p.2) 0 = (0 : Rat) := by
        intro p _; simp [diff_percent]
      rw [List.map_congr_left hconst, List.map_const']
    rw [this, hlen]

/-- C4 witness: the formula at a positive minimum and the guard at zero. -/
theorem overhead_percentage_safe_witness :
    diff_percent 5 2 = ((5 : Rat) - (2 : Rat)) / (2 : Rat) * 100 ∧
    diff_percent 7 0 = 0 ∧
    (∀ p ∈ compare_tokenizers_on_text
      ([("a", { specialTokens := [], tokenTable := [], merges := [],
                unkToken := "[UNK]" : Vocabulary })].map (fun v => (v.1, encode v.2))) "",
      p.2 = 0) :=
  ⟨overhead_percentage_safe.1 5 2 (by decide), overhead_percentage_safe.2.1 7,
    (overhead_percentage_safe.2.2 _).1⟩

/-- A successful association-list lookup exhibits a member entry. -/
theorem mem_of_lookup_eq_some {β : Type} {l : List (String × β)} {k : String} {b : β}
    (h : List.lookup k l = some b) : (k, b) ∈ l := by
  obtain ⟨l₁, l₂, rfl, -⟩ := List.lookup_eq_some_iff.mp h
  exact List.mem_append.mpr (Or.inr (List.mem_cons_self _ _))

/-- A merge pass that neither consumes nor produces the symbol `u` preserves
the number of occurrences of `u`. -/
theorem count_scanReplace (u a b c : Nat) (ha : a ≠ u) (hb : b ≠ u) (hc : c ≠ u) :
    ∀ xs : List Nat, (scanReplace a b c xs).count u = xs.count u := by
  intro xs
  induction xs using scanReplace.induct a b c with
  | case1 => rfl
  | case2 x => rfl
  | case3 x y rest h ih =>
      obtain ⟨rfl, rfl⟩ := h
      rw [scanReplace, if_pos ⟨rfl, rfl⟩]
      simp only [List.count_cons, ih]
      simp [ha, hb, hc]
  | case4 x y rest h ih =>
      rw [scanReplace, if_neg h]
      simp only [List.count_cons, ih]

/-- Merge application preserves the count of any symbol no rule mentions. -/
theorem count_applyMerges (rules : List (Nat × Nat × Nat)) (u : Nat)
    (h : ∀ r ∈ rules, r.1 ≠ u ∧ r.2.1 ≠ u ∧ r.2.2 ≠ u) :
    ∀ (fuel : Nat) (xs : List Nat), (applyMerges rules fuel xs).count u = xs.count u := by
  intro fuel
  induction fuel with
  | zero => intro xs; rfl
  | succ n ih =>
    intro xs
    rw [applyMerges]
    cases hfind : findRule rules xs with
    | none => rfl
    | some r =>
      obtain ⟨a, b, c⟩ := r
      have hmem : (a, b, c) ∈ rules := List.mem_of_find?_eq_some hfind
      obtain ⟨ha, hb, hc⟩ := h _ hmem
      rw [ih (scanReplace a b c xs), count_scanReplace u a b c ha hb hc xs]

/-- C6.  Encoding is total by construction and the unknown token is exactly
the image of the absent characters: for a vocabulary whose merge rules never
mention the unknown id and whose single-character tokens never carry the
unknown id, the number of unknown-token ids in any encoded text equals the
number of (non-whitespace, hence actually encoded) characters that are
absent from the token table — each absent character degrades to the unknown
id in place of raising, and no other path emits it. -/
theorem encode_unknown_fallback (V : Vocabulary)
    (hrules : ∀ r ∈ ruleIds V, r.1 ≠ unkId V ∧ r.2.1 ≠ unkId V ∧ r.2.2 ≠ unkId V)
    (htable : ∀ p ∈ V.tokenTable, p.1.length = 1 → p.2 ≠ unkId V) :
    ∀ text : String, (encode V text).count (unkId V) =
      (text.toList.filter (fun c => !c.isWhitespace)).countP
        (fun c => (lookupChar V c).isNone) := by
  intro text
  have hunit : ∀ unit : List Char, (encodeUnit V unit).count (unkId V) =
      unit.countP (fun c => (lookupChar V c).isNone) := by
    intro unit
    show (applyMerges (ruleIds V) _ (unit.map (fun c => (lookupChar V c).getD (unkId V)))).count
        (unkId V) = _
    rw [count_applyMerges (ruleIds V) (unkId V) hrules]
    rw [List.count_eq_countP, List.countP_map]
    refine List.countP_congr ?_
    intro c _
    cases hl : lookupChar V c with
    | none => simp [Function.comp, hl]
    | some i =>
      have hmem : (c.toString, i) ∈ V.tokenTable := mem_of_lookup_eq_some hl
      have hne : i ≠ unkId V := htable _ hmem (by simp)
      simp [Function.comp, hl, hne]
  show (((preTokenize text.toList).map (encodeUnit V)).flatten).count (unkId V) = _
  rw [List.count_flatten, List.map_map]
  rw [← preTokenize_flatten text.toList, List.countP_flatten]
  congr 1
  exact List.map_congr_left (fun u _ => hunit u)

/-- C6 witness: in the vocabulary with tokens `a`, `b`, the merged `ab` and
the special `[UNK]`, encoding `"ab x"` maps the absent `x` — and only it —
to the unknown id. -/
theorem encode_unknown_fallback_witness :
    (encode { specialTokens := ["[UNK]"],
              tokenTable := [("[UNK]", 0), ("a", 1), ("b", 2), ("ab", 3)],
              merges := [("a", "b")], unkToken := "[UNK]" } "ab x").count
      (unkId { specialTokens := ["[UNK]"],
               tokenTable := [("[UNK]", 0), ("a", 1), ("b", 2), ("ab", 3)],
               merges := [("a", "b")], unkToken := "[UNK]" }) =
    (("ab x".toList.filter (fun c => !c.isWhitespace)).countP
      (fun c => (lookupChar { specialTokens := ["[UNK]"],
                              tokenTable := [("[UNK]", 0), ("a", 1), ("b", 2), ("ab", 3)],
                              merges := [("a", "b")], unkToken := "[UNK]" } c).isNone)) :=
  encode_unknown_fallback _ (by decide) (by decide) "ab x"

/-- C5.  Training is deterministic: two calls on identical corpus, target
size, minimum merge frequency and special-token sequence produce the same
`Vocabulary` — same ids, same merge order — and hence byte-identical
serialized artifacts.  The modelled trainer is a pure function with the
spec's explicit first-seen tie-break, so the result depends on nothing but
the four inputs. -/
theorem train_deterministic (c₁ c₂ : List String) (n₁ n₂ f₁ f₂ : Nat)
    (t₁ t₂ : List String) (hc : c₁ = c₂) (hn : n₁ = n₂) (hf : f₁ = f₂) (ht : t₁ = t₂) :
    train c₁ n₁ f₁ t₁ = train c₂ n₂ f₂ t₂ ∧
    (train c₁ n₁ f₁ t₁).map serializeVocabulary =
      (train c₂ n₂ f₂ t₂).map serializeVocabulary := by
  subst hc; subst hn; subst hf; subst ht
  exact ⟨rfl, rfl⟩

/-- C5 witness: two runs on the spec's example corpus coincide. -/
theorem train_deterministic_witness :
    train ["aaabdaaabac"] 10 2 ["[UNK]"] = train ["aaabdaaabac"] 10 2 ["[UNK]"] ∧
    (train ["aaabdaaabac"] 10 2 ["[UNK]"]).map serializeVocabulary =
      (train ["aaabdaaabac"] 10 2 ["[UNK]"]).map serializeVocabulary :=
  train_deterministic _ _ _ _ _ _ _ _ rfl rfl rfl rfl

/-- Regression check against the spec's worked example (§8): on the corpus
`aaabdaaabac` the first merge is the most frequent pair `aa` (4 occurrences),
and the subsequent merges follow deterministically from the first-seen
tie-break. -/
theorem train_example_first_merge :
    (train ["aaabdaaabac"] 12 2 ["[UNK]", "[CLS]", "[SEP]"]).map (fun V => V.merges) =
      Except.ok [("a", "a"), ("aa", "a"), ("aaa", "b")] :=
  rfl

/-- Inserting a fresh key into a Python dict appends the entry at the end. -/
theorem dictInsert_of_not_mem {α : Type} (k : String) (v : α) :
    ∀ acc : List (String × α), (∀ p ∈ acc, p.1 ≠ k) →
      dictInsert k v acc = acc ++ [(k, v)] := by
  intro acc
  induction acc with
  | nil => intro _; rfl
  | cons p rest ih =>
    intro h
    have hp : p.1 ≠ k := h p (List.mem_cons_self p rest)
    simp only [dictInsert, if_neg hp, List.cons_append]
    rw [ih (fun q hq => h q (List.mem_cons_of_mem p hq))]

/-- The loader loop, started from any accumulator whose keys are disjoint
from the (pairwise distinct) stems still to come, appends exactly the
successful loads in order. -/
theorem load_tokenizers_go_eq {α : Type} :
    ∀ (files : List (String × Except String α)) (acc : List (String × α)),
      (files.map (fun f => stem f.1)).Nodup →
      (∀ f ∈ files, ∀ p ∈ acc, p.1 ≠ stem f.1) →
      load_tokenizers_go acc files = acc ++ files.filterMap (fun f =>
        match f.2 with
        | Except.ok t => some (stem f.1, t)
        | Except.error _ => none) := by
  intro files
  induction files with
  | nil => intro acc _ _; simp [load_tokenizers_go]
  | cons f rest ih =>
    intro acc hnd hacc
    obtain ⟨name, res⟩ := f
    simp only [List.map_cons, List.nodup_cons] at hnd
    cases res with
    | error e =>
      simp only [load_tokenizers_go, List.filterMap_cons]
      exact ih acc hnd.2 (fun g hg p hp => hacc g (List.mem_cons_of_mem _ hg) p hp)
    | ok t =>
      simp only [load_tokenizers_go, List.filterMap_cons]
      rw [dictInsert_of_not_mem (stem name) t acc
        (fun p hp => hacc (name, Except.ok t) (List.mem_cons_self _ _) p hp)]
      rw [ih (acc ++ [(stem name, t)]) hnd.2 ?_]
      · simp
      · intro g hg p hp
        rcases List.mem_append.mp hp with h | h
        · exact hacc g (List.mem_cons_of_mem _ hg) p h
        · have : p = (stem name, t) := by simpa using h
          subst this
          intro hcon
          have hcon2 : stem name = stem g.1 := hcon
          exact hnd.1 (by rw [hcon2]; exact List.mem_map_of_mem (fun f => stem f.1) hg)

/-- C7.  Loading a directory of persisted vocabularies (with distinct stems,
as a directory listing gives): every successful load appears under its file
stem, a failed load contributes nothing but removes only its own entry, and
the loop continues over all remaining files — one bad file never aborts the
batch. -/
theorem loader_isolates_failures {α : Type} (files : List (String × Except String α))
    (h : (files.map (fun f => stem f.1)).Nodup) :
    load_tokenizers files = files.filterMap (fun f =>
      match f.2 with
      | Except.ok t => some (stem f.1, t)
      | Except.error _ => none) := by
  have hgo := load_tokenizers_go_eq files [] h (by simp)
  simpa [load_tokenizers] using hgo

/-- C7 witness: a failing middle file is skipped, its neighbors load. -/
theorem loader_isolates_failures_witness :
    load_tokenizers [("a.json", Except.ok (1 : Nat)), ("bad.json", Except.error "boom"),
        ("c.json", Except.ok 2)] =
      [("a.json", Except.ok (1 : Nat)), ("bad.json", Except.error "boom"),
        ("c.json", Except.ok 2)].filterMap (fun f =>
        match f.2 with
        | Except.ok t => some (stem f.1, t)
        | Except.error _ => none) :=
  loader_isolates_failures _ (by decide)

/-- C8.  A corpus name that is not a key of `CORPORA_FILES` is rejected with
the `ValueError` — the call is fatal and no file list is returned. -/
theorem unrecognized_corpus_selector (glob : String → String → List String)
    (name pat : String) (h : name ∉ (CORPORA_FILES glob).map (fun p => p.1)) :
    get_corpus_file glob name pat =
      Except.error (PyError.valueError ("Corpus " ++ name ++ " not found")) ∧
    ∀ fs : List String, get_corpus_file glob name pat ≠ Except.ok fs := by
  have hg : get_corpus_file glob name pat =
      Except.error (PyError.valueError ("Corpus " ++ name ++ " not found")) := by
    unfold get_corpus_file
    rw [if_neg h]
  refine ⟨hg, fun fs hfs => ?_⟩
  rw [hg] at hfs
  exact Except.noConfusion hfs

/-- C8 witness: the name `KRZYZACY` is not a corpus selector. -/
theorem unrecognized_corpus_selector_witness :
    get_corpus_file (fun _ _ => []) "KRZYZACY" "*.txt" =
      Except.error (PyError.valueError ("Corpus " ++ "KRZYZACY" ++ " not found")) :=
  (unrecognized_corpus_selector (fun _ _ => []) "KRZYZACY" "*.txt" (by decide)).1

/-- C9.  `PAN_TADEUSZ` is a key of `CORPORA_FILES`, so it passes the
unrecognized-name check; yet for every filesystem and every glob pattern the
call then dies on the `CORPORA_DIRS[corpus_name]` lookup with a `KeyError` —
neither a file list nor the designated corpus-not-found error. -/
theorem pan_tadeusz_keyerror (glob : String → String → List String) (pat : String) :
    "PAN_TADEUSZ" ∈ (CORPORA_FILES glob).map (fun p => p.1) ∧
    get_corpus_file glob "PAN_TADEUSZ" pat =
      Except.error (PyError.keyError "PAN_TADEUSZ") := by
  constructor
  · simp [CORPORA_FILES]
  · rfl

/-- C10.  `load_text_file` is total: the read result comes back on success,
any read failure is swallowed into the empty string — indistinguishable from
a genuinely empty file — and the comparison driver then skips that text with
a message instead of aborting the batch. -/
theorem load_text_file_total (e s : String) :
    load_text_file (Except.error e) = "" ∧
    load_text_file (Except.ok s) = s ∧
    load_text_file (Except.error e) = load_text_file (Except.ok "") ∧
    (∀ toks : List (String × (String → List Nat)),
      processText toks (true, Except.error e) = (none, ["✗ Empty or unreadable file"]) ∧
      processText toks (true, Except.error e) = processText toks (true, Except.ok "")) :=
  ⟨rfl, rfl, rfl, fun _ => ⟨rfl, rfl⟩⟩

/-- C3 counterexample: with an empty tokenizer directory the run prints the
clear `✗ No tokenizers found!` message and does not crash, but the process
exit code is `0` — `main` just returns, no `sys.exit` is ever called — so
the claimed non-zero exit code is refuted. -/
theorem no_tokenizers_zero_exit_counterexample :
    load_tokenizers ([] : List (String × Except String (String → List Nat))) = [] ∧
    (mainRun [] []).exitCode = 0 ∧
    (mainRun [] []).messages = ["✗ No tokenizers found!"] :=
  ⟨rfl, rfl, rfl⟩

/-- C3 (amended).  When no tokenizers are found the run reports the
condition with a clear message and does not crash, and the process exits
cleanly with code 0 (not with a non-zero code). -/
theorem no_tokenizers_clean_exit
    (tokenizerFiles : List (String × Except String (String → List Nat)))
    (texts : List (Bool × Except String String))
    (h : load_tokenizers tokenizerFiles = []) :
    (mainRun tokenizerFiles texts).messages = ["✗ No tokenizers found!"] ∧
    (mainRun tokenizerFiles texts).exitCode = 0 := by
  simp [mainRun, h]

/-- C3 witness: the empty tokenizer directory. -/
theorem no_tokenizers_clean_exit_witness :
    (mainRun [] []).messages = ["✗ No tokenizers found!"] ∧
    (mainRun [] []).exitCode = 0 :=
  no_tokenizers_clean_exit [] [] rfl
